import Mathlib

/-!
# ProductCard: variant catalog, stock rule, price resolution and the add-to-cart handler

A shallow embedding of `src/components/ProductCard.jsx`.

Modelling conventions
* A price is a finite IEEE 754 double: a rational `m * 2 ^ e` with `|m| < 2 ^ 53` and
  `-1074 ≤ e ≤ 971`. `NaN` and the infinities are not prices, and the two zeros are one
  value, as they are for `===`. The operators `+` and `-` of JavaScript are `jsAdd` and
  `jsSub`: the exact result rounded to the nearest double, a tie going to the even
  significand. A decimal literal denotes the double nearest to it.
* `product.id` is an integer.
* A property that may be `undefined` or `null` is an `Option`; `none` stands for both.
* A string is truthy exactly when it is not `""`; an array is always truthy, the empty one
  included.
* `handleAddToCart` is a straight-line `async` function that reads only values captured by
  its closure (`product`, `variants`, `selectedVariant`), so one invocation is described by
  the ordered list of the actions it performs, the `await` included.
* The card is a step function over user events, timer events and renders. The button, the
  selector and the closure of the handler are those of the last render; a state update
  reaches them only with the next render.
-/

namespace ProductCard

/-! ## Double-precision numbers -/

/-- Rounds a rational to the nearest integer, a tie going to the even neighbour. -/
def roundHalfEven (t : ℚ) : ℤ :=
  if t - ⌊t⌋ < 1 / 2 then ⌊t⌋
  else if 1 / 2 < t - ⌊t⌋ then ⌊t⌋ + 1
  else if ⌊t⌋ % 2 = 0 then ⌊t⌋ else ⌊t⌋ + 1

/-- The exponent of the last place of a double of the size of `q`: 52 below the binary
logarithm of `|q|`, and `-1074` in the subnormal range. -/
def ulpExponent (q : ℚ) : ℤ :=
  if q = 0 then -1074 else max (Int.log 2 |q| - 52) (-1074)

/-- The largest finite double, `(2 ^ 53 - 1) * 2 ^ 971`. -/
def maxFinite : ℚ := (2 ^ 53 - 1) * 2 ^ (971 : ℤ)

/-- The multiple of `2 ^ ulpExponent q` nearest to `q`, ties to even. -/
def nearestOnGrid (q : ℚ) : ℚ :=
  (roundHalfEven (q / 2 ^ ulpExponent q) : ℚ) * 2 ^ ulpExponent q

/-- Rounding to double precision, on values. Beyond the finite range, where IEEE 754 yields
an infinity, the largest finite double of that sign stands in; the sums the component
forms, a price plus 5 or 10, never get there (`jsAdd_small_val`). -/
def roundToDouble (q : ℚ) : ℚ :=
  if maxFinite < nearestOnGrid q then maxFinite
  else if nearestOnGrid q < -maxFinite then -maxFinite
  else nearestOnGrid q

/-- The values of the finite doubles, stated directly. -/
def Representable (q : ℚ) : Prop :=
  ∃ m e : ℤ, |m| < 2 ^ 53 ∧ -1074 ≤ e ∧ e ≤ 971 ∧ q = (m : ℚ) * 2 ^ e

/-- A finite double, by its value: a rational that rounding leaves unchanged, which is the
same as `Representable` (`representable_iff`). -/
structure Float64 where
  val : ℚ
  isDouble : roundToDouble val = val
deriving DecidableEq

/-- The double nearest to a rational, which is how a numeric literal is read. The second
branch is never taken (`roundToDouble_idem`). -/
def Float64.ofRat (q : ℚ) : Float64 :=
  if h : roundToDouble (roundToDouble q) = roundToDouble q then ⟨roundToDouble q, h⟩
  else ⟨0, by
    have hmax : (0 : ℚ) < maxFinite := by
      unfold maxFinite
      exact mul_pos (by norm_num) (zpow_pos (by norm_num) _)
    have hzero : nearestOnGrid 0 = 0 := by simp [nearestOnGrid, roundHalfEven]
    unfold roundToDouble
    rw [hzero, if_neg (not_lt.2 hmax.le), if_neg (by linarith)]⟩

instance : LE Float64 := ⟨fun a b => a.val ≤ b.val⟩

instance : LT Float64 := ⟨fun a b => a.val < b.val⟩

instance (a b : Float64) : Decidable (a ≤ b) := inferInstanceAs (Decidable (a.val ≤ b.val))

instance (a b : Float64) : Decidable (a < b) := inferInstanceAs (Decidable (a.val < b.val))

instance (n : Nat) : OfNat Float64 n := ⟨Float64.ofRat n⟩

/-- The operator `+` on two numbers. -/
def jsAdd (a b : Float64) : Float64 := Float64.ofRat (a.val + b.val)

/-- The operator `-` on two numbers. A difference beyond the finite range is clamped like
every rounding here, which keeps its sign. -/
def jsSub (a b : Float64) : Float64 := Float64.ofRat (a.val - b.val)

/-! ## The component -/

/-- The `rating` object of a product: `rate` and `count`. -/
structure Rating where
  rate : Float64
  count : Nat
deriving DecidableEq

/-- One entry of the variant list: `id`, `name`, `price`. -/
structure Variant where
  id : Int
  name : String
  price : Float64
deriving DecidableEq

/-- The `product` prop of the component, with the fields the component reads. -/
structure Product where
  id : Int
  title : String
  image : String
  price : Float64
  originalPrice : Option Float64
  discount : Option Int
  rating : Option Rating
  variants : Option (List Variant)
deriving DecidableEq

/-- The object built as `productToAdd`: the spread product plus the two added keys. -/
structure CartLineItem where
  product : Product
  selectedVariant : Option String
  variantPrice : Option Float64
deriving DecidableEq

/-- The mock list used when `product.variants` is falsy (lines 15-17). -/
def mockVariants (product : Product) : List Variant :=
  [ { id := 1, name := "Small", price := product.price },
    { id := 2, name := "Medium", price := jsAdd product.price 5 },
    { id := 3, name := "Large", price := jsAdd product.price 10 } ]

/-- The constant `variants`: `product.variants || [Small, Medium, Large]`.
An array is truthy whatever its length, so only an absent list takes the fallback. -/
def variants (product : Product) : List Variant :=
  match product.variants with
  | some vs => vs
  | none => mockVariants product

/-- The constant `isOutOfStock`: `product.id % 2 === 0`, with the remainder of JavaScript,
which takes the sign of the dividend. -/
def isOutOfStock (product : Product) : Bool :=
  decide (Int.tmod product.id 2 = 0)

/-- The expression `selectedVariant ? variants.find(v => v.name === selectedVariant)?.price
: product.price`, used for `variantPrice` and for the displayed current price. -/
def variantPrice (product : Product) (vs : List Variant) (selectedVariant : String) :
    Option Float64 :=
  if selectedVariant ≠ "" then
    (vs.find? (fun v => decide (v.name = selectedVariant))).map Variant.price
  else
    some product.price

/-- The expression `selectedVariant || variants[0]?.name`. -/
def selectedVariantName (vs : List Variant) (selectedVariant : String) : Option String :=
  if selectedVariant ≠ "" then some selectedVariant else vs.head?.map Variant.name

/-- The object `productToAdd` of `handleAddToCart`. -/
def productToAdd (product : Product) (selectedVariant : String) : CartLineItem :=
  { product := product,
    selectedVariant := selectedVariantName (variants product) selectedVariant,
    variantPrice := variantPrice product (variants product) selectedVariant }

/-- The amount shown after each option of the selector: `variant.price - product.price`. -/
def optionDelta (product : Product) (variant : Variant) : Float64 :=
  jsSub variant.price product.price

/-- What one invocation of `handleAddToCart` can do, one constructor per kind of statement. -/
inductive Action where
  | toastError (message : String)
  | toastSuccess (message : String)
  | setIsLoading (value : Bool)
  | awaitDelay (ms : Nat)
  | dispatchAddCart (item : CartLineItem)
deriving DecidableEq

/-- The handler `handleAddToCart` as the ordered list of actions of one invocation made
from a render whose selection is `selectedVariant`. -/
def handleAddToCart (product : Product) (selectedVariant : String) : List Action :=
  if isOutOfStock product then
    [Action.toastError "Product is out of stock!"]
  else if selectedVariant = "" ∧ (variants product).length > 1 then
    [Action.toastError "Please select a variant!"]
  else
    [ Action.setIsLoading true,
      Action.awaitDelay 500,
      Action.dispatchAddCart (productToAdd product selectedVariant),
      Action.toastSuccess "Added to cart!",
      Action.setIsLoading false ]

/-- The line items handed to `dispatch(addCart(...))` by a list of actions, in order. -/
def dispatched : List Action → List CartLineItem
  | [] => []
  | Action.dispatchAddCart item :: rest => item :: dispatched rest
  | _ :: rest => dispatched rest

/-- The toast calls of a list of actions, in order. -/
def notifications : List Action → List Action
  | [] => []
  | Action.toastError message :: rest => Action.toastError message :: notifications rest
  | Action.toastSuccess message :: rest => Action.toastSuccess message :: notifications rest
  | _ :: rest => notifications rest

/-- The value of the loading flag after a list of actions, starting from `flag`. -/
def loadingAfter (flag : Bool) : List Action → Bool
  | [] => flag
  | Action.setIsLoading value :: rest => loadingAfter value rest
  | _ :: rest => loadingAfter flag rest

/-- The state of one mounted card: the two `useState` cells; the values of those cells in
the last render, which are what the rendered button, the selector and the closure of
`handleAddToCart` see; the invocations of `handleAddToCart` suspended on their delay (each
as the actions it still has to perform, oldest first); and the toasts and dispatches
performed so far (oldest first). -/
structure Card where
  selectedVariant : String
  isLoading : Bool
  renderedVariant : String
  renderedLoading : Bool
  suspended : List (List Action)
  log : List Action
deriving DecidableEq

/-- The card as first rendered: `useState("")`, `useState(false)`, nothing done yet. -/
def Card.initial : Card :=
  { selectedVariant := "", isLoading := false, renderedVariant := "",
    renderedLoading := false, suspended := [], log := [] }

/-- A card rendered with `sel` as the current selection, nothing loading or pending. -/
def Card.selecting (sel : String) : Card :=
  { selectedVariant := sel, isLoading := false, renderedVariant := sel,
    renderedLoading := false, suspended := [], log := [] }

/-- Performs actions on a card up to the next `await`, where the rest is parked until the
timer fires. `setIsLoading` writes the state cell; the render stays as it was. -/
def perform : List Action → Card → Card
  | [], card => card
  | Action.awaitDelay _ :: rest, card => { card with suspended := card.suspended ++ [rest] }
  | Action.setIsLoading value :: rest, card => perform rest { card with isLoading := value }
  | Action.toastError message :: rest, card =>
      perform rest { card with log := card.log ++ [Action.toastError message] }
  | Action.toastSuccess message :: rest, card =>
      perform rest { card with log := card.log ++ [Action.toastSuccess message] }
  | Action.dispatchAddCart item :: rest, card =>
      perform rest { card with log := card.log ++ [Action.dispatchAddCart item] }

/-- A call of the `handleAddToCart` of the last render, whose closure holds the selection
of that render. -/
def invoke (product : Product) (card : Card) : Card :=
  perform (handleAddToCart product card.renderedVariant) card

/-- Whether the rendered action button is disabled: the out-of-stock button always is, the
primary one when `isLoading || (variants.length > 1 && !selectedVariant)`, read in the last
render. -/
def buttonDisabled (product : Product) (card : Card) : Bool :=
  if isOutOfStock product then true
  else card.renderedLoading ||
    (decide ((variants product).length > 1) && card.renderedVariant == "")

/-- The values offered by the selector: the placeholder `""` and every variant name. -/
def selectorOptions (product : Product) : List String :=
  "" :: (variants product).map Variant.name

/-- Whether the selector accepts input: it is rendered when `variants.length > 1` and is
disabled when the product is out of stock. -/
def selectorEnabled (product : Product) : Bool :=
  decide ((variants product).length > 1) && !isOutOfStock product

/-- What can happen to a mounted card. -/
inductive Event where
  | change (value : String)
  | click
  | delayElapsed
  | render
deriving DecidableEq

/-- One event on a card. The selector, when rendered and enabled, stores the value of the
chosen option (`setSelectedVariant(e.target.value)`); a click reaches `handleAddToCart`
unless the button of the last render is disabled; timers of equal delay fire in the order
they were set; a render brings the view up to the state cells. -/
def step (product : Product) (card : Card) : Event → Card
  | Event.change value =>
      if selectorEnabled product && decide (value ∈ selectorOptions product) then
        { card with selectedVariant := value }
      else card
  | Event.click => if buttonDisabled product card then card else invoke product card
  | Event.delayElapsed =>
      match card.suspended with
      | [] => card
      | pending :: others => perform pending { card with suspended := others }
  | Event.render =>
      { card with renderedVariant := card.selectedVariant, renderedLoading := card.isLoading }

/-- A sequence of events on a card, first event first. -/
def run (product : Product) (card : Card) (events : List Event) : Card :=
  events.foldl (step product) card

/-- A product with odd id, base price 10 and no explicit variants, used at concrete
inputs. -/
def sampleProduct : Product :=
  { id := 1, title := "Backpack", image := "backpack.jpg", price := 10,
    originalPrice := none, discount := none, rating := none, variants := none }

/-- The sample product with the given explicit variant list. -/
def sampleWith (vs : List Variant) : Product :=
  { sampleProduct with variants := some vs }

/-- The sample product with the given id. -/
def sampleWithId (id : Int) : Product :=
  { sampleProduct with id := id }

/-- The sample product with the given base price. -/
def sampleWithPrice (price : Float64) : Product :=
  { sampleProduct with price := price }

/-! ## Facts about rounding -/

theorem roundHalfEven_intCast (n : ℤ) : roundHalfEven (n : ℚ) = n := by
  simp [roundHalfEven]

theorem le_roundHalfEven {n : ℤ} {t : ℚ} (h : (n : ℚ) ≤ t) : n ≤ roundHalfEven t := by
  have hfloor : n ≤ ⌊t⌋ := Int.le_floor.2 h
  unfold roundHalfEven
  split_ifs <;> omega

theorem roundHalfEven_le {n : ℤ} {t : ℚ} (h : t ≤ (n : ℚ)) : roundHalfEven t ≤ n := by
  have hfloor : ⌊t⌋ ≤ n := by
    have := Int.floor_le t
    exact_mod_cast (Int.floor_le t).trans h
  have hstep : ¬ t - ⌊t⌋ < 1 / 2 → ⌊t⌋ + 1 ≤ n := by
    intro hfrac
    have hlt : (⌊t⌋ : ℚ) < n := by linarith
    have : ⌊t⌋ < n := by exact_mod_cast hlt
    omega
  unfold roundHalfEven
  split_ifs with h1 h2 h3
  · exact hfloor
  · exact hstep h1
  · exact hfloor
  · exact hstep h1


theorem ulpExponent_ge (q : ℚ) : -1074 ≤ ulpExponent q := by
  unfold ulpExponent
  split_ifs
  · exact le_refl _
  · exact le_max_right _ _

theorem abs_lt_zpow_ulpExponent (q : ℚ) : |q| < (2 : ℚ) ^ (ulpExponent q + 53) := by
  by_cases hq : q = 0
  · subst hq
    simpa using zpow_pos (by norm_num : (0 : ℚ) < 2) _
  · have h1 : |q| < ((2 : ℕ) : ℚ) ^ (Int.log 2 |q| + 1) :=
      Int.lt_zpow_succ_log_self (by norm_num) |q|
    have h2 : Int.log 2 |q| + 1 ≤ ulpExponent q + 53 := by
      have : Int.log 2 |q| - 52 ≤ ulpExponent q := by
        unfold ulpExponent
        rw [if_neg hq]
        exact le_max_left _ _
      omega
    have h3 : ((2 : ℕ) : ℚ) ^ (Int.log 2 |q| + 1) ≤ (2 : ℚ) ^ (ulpExponent q + 53) := by
      have : ((2 : ℕ) : ℚ) = 2 := by norm_num
      rw [this]
      exact zpow_le_zpow_right₀ (by norm_num) h2
    exact lt_of_lt_of_le h1 h3

theorem zpow_le_abs_of_ulpExponent (q : ℚ) (h : -1074 < ulpExponent q) :
    (2 : ℚ) ^ (ulpExponent q + 52) ≤ |q| := by
  by_cases hq : q = 0
  · subst hq
    simp [ulpExponent] at h
  · have hpos : 0 < |q| := abs_pos.2 hq
    have he : ulpExponent q = Int.log 2 |q| - 52 := by
      unfold ulpExponent at h ⊢
      rw [if_neg hq] at h ⊢
      rcases le_total (Int.log 2 |q| - 52) (-1074) with hle | hle
      · rw [max_eq_right hle] at h
        omega
      · exact max_eq_left hle
    have h1 : ((2 : ℕ) : ℚ) ^ Int.log 2 |q| ≤ |q| := Int.zpow_log_le_self (by norm_num) hpos
    have h2 : ulpExponent q + 52 = Int.log 2 |q| := by omega
    rw [h2]
    simpa using h1

theorem ulpExponent_le_of_abs_lt (q : ℚ) (k : ℤ) (hk : -1074 ≤ k)
    (h : |q| < (2 : ℚ) ^ (k + 53)) : ulpExponent q ≤ k := by
  unfold ulpExponent
  split_ifs with hq
  · exact hk
  · have hpos : 0 < |q| := abs_pos.2 hq
    have h1 : |q| < ((2 : ℕ) : ℚ) ^ (k + 53) := by simpa using h
    have h2 : Int.log 2 |q| < k + 53 := (Int.lt_zpow_iff_log_lt (by norm_num) hpos).1 h1
    exact max_le (by omega) hk


theorem div_zpow_of_le (m e k : ℤ) (h : k ≤ e) :
    ((m : ℚ) * 2 ^ e) / 2 ^ k = ((m * 2 ^ (e - k).toNat : ℤ) : ℚ) := by
  have h2 : (2 : ℚ) ≠ 0 := by norm_num
  have hk : ((e - k).toNat : ℤ) = e - k := Int.toNat_of_nonneg (by omega)
  have hpow : (2 : ℚ) ^ (e - k).toNat = 2 ^ (e - k) := by
    rw [← zpow_natCast, hk]
  push_cast
  rw [hpow, zpow_sub₀ h2, mul_div_assoc]

theorem abs_lt_of_representable (m e : ℤ) (hm : |m| < 2 ^ 53) :
    |(m : ℚ) * 2 ^ e| < (2 : ℚ) ^ (e + 53) := by
  have hpos : (0 : ℚ) < 2 ^ e := zpow_pos (by norm_num) _
  have hm1 : |(m : ℚ)| < 2 ^ 53 := by exact_mod_cast hm
  rw [abs_mul, abs_of_pos hpos, zpow_add₀ (by norm_num : (2 : ℚ) ≠ 0), mul_comm ((2 : ℚ) ^ e)]
  have : (2 : ℚ) ^ (53 : ℤ) = 2 ^ 53 := by norm_cast
  rw [this]
  exact mul_lt_mul_of_pos_right hm1 hpos

theorem abs_le_maxFinite_of_representable (m e : ℤ) (hm : |m| < 2 ^ 53) (he : e ≤ 971) :
    |(m : ℚ) * 2 ^ e| ≤ maxFinite := by
  have hpos : (0 : ℚ) < 2 ^ e := zpow_pos (by norm_num) _
  have hm1 : |m| ≤ 2 ^ 53 - 1 := by omega
  have hm2 : |(m : ℚ)| ≤ 2 ^ 53 - 1 := by exact_mod_cast hm1
  have hpow : (2 : ℚ) ^ e ≤ 2 ^ (971 : ℤ) := zpow_le_zpow_right₀ (by norm_num) he
  rw [abs_mul, abs_of_pos hpos]
  unfold maxFinite
  exact mul_le_mul hm2 hpow hpos.le (by norm_num)

theorem nearestOnGrid_of_representable (m e : ℤ) (hm : |m| < 2 ^ 53) (he : -1074 ≤ e) :
    nearestOnGrid ((m : ℚ) * 2 ^ e) = (m : ℚ) * 2 ^ e := by
  have hk : ulpExponent ((m : ℚ) * 2 ^ e) ≤ e :=
    ulpExponent_le_of_abs_lt _ e he (abs_lt_of_representable m e hm)
  have hpos : (0 : ℚ) < 2 ^ ulpExponent ((m : ℚ) * 2 ^ e) := zpow_pos (by norm_num) _
  unfold nearestOnGrid
  rw [div_zpow_of_le m e _ hk, roundHalfEven_intCast, ← div_zpow_of_le m e _ hk]
  exact div_mul_cancel₀ _ hpos.ne'

theorem roundToDouble_of_representable (q : ℚ) (h : Representable q) : roundToDouble q = q := by
  obtain ⟨m, e, hm, he1, he2, rfl⟩ := h
  have hgrid := nearestOnGrid_of_representable m e hm he1
  have habs := abs_le_maxFinite_of_representable m e hm he2
  have hle := (abs_le.1 habs)
  unfold roundToDouble
  rw [hgrid, if_neg (not_lt.2 hle.2), if_neg (not_lt.2 hle.1)]


theorem le_nearestOnGrid (m e : ℤ) (hm : |m| < 2 ^ 53) (he : -1074 ≤ e) (y : ℚ)
    (h : (m : ℚ) * 2 ^ e ≤ y) : (m : ℚ) * 2 ^ e ≤ nearestOnGrid y := by
  have h2 : (2 : ℚ) ≠ 0 := by norm_num
  have hpos : (0 : ℚ) < 2 ^ ulpExponent y := zpow_pos (by norm_num) _
  unfold nearestOnGrid
  rcases le_or_lt (ulpExponent y) e with hk | hk
  · have hdiv : ((m * 2 ^ (e - ulpExponent y).toNat : ℤ) : ℚ) ≤ y / 2 ^ ulpExponent y := by
      rw [← div_zpow_of_le m e _ hk]
      exact div_le_div_of_nonneg_right h hpos.le
    have hround := le_roundHalfEven hdiv
    have hcast : ((m * 2 ^ (e - ulpExponent y).toNat : ℤ) : ℚ) ≤
        (roundHalfEven (y / 2 ^ ulpExponent y) : ℚ) := by exact_mod_cast hround
    calc (m : ℚ) * 2 ^ e
        = ((m : ℚ) * 2 ^ e) / 2 ^ ulpExponent y * 2 ^ ulpExponent y :=
          (div_mul_cancel₀ _ hpos.ne').symm
      _ = ((m * 2 ^ (e - ulpExponent y).toNat : ℤ) : ℚ) * 2 ^ ulpExponent y := by
          rw [div_zpow_of_le m e _ hk]
      _ ≤ (roundHalfEven (y / 2 ^ ulpExponent y) : ℚ) * 2 ^ ulpExponent y :=
          mul_le_mul_of_nonneg_right hcast hpos.le
  · have hbig : (2 : ℚ) ^ (ulpExponent y + 52) ≤ |y| :=
      zpow_le_abs_of_ulpExponent y (by omega)
    have hx : |(m : ℚ) * 2 ^ e| < (2 : ℚ) ^ (ulpExponent y + 52) :=
      lt_of_lt_of_le (abs_lt_of_representable m e hm)
        (zpow_le_zpow_right₀ (by norm_num) (by omega))
    have hypos : 0 < y := by
      by_contra hneg
      have hy : |y| = -y := abs_of_nonpos (not_lt.1 hneg)
      have hx2 : -((m : ℚ) * 2 ^ e) ≤ |(m : ℚ) * 2 ^ e| := neg_le_abs _
      linarith
    have hy : (2 : ℚ) ^ (ulpExponent y + 52) ≤ y := by rwa [abs_of_pos hypos] at hbig
    have hdiv : (((2 : ℤ) ^ 52 : ℤ) : ℚ) ≤ y / 2 ^ ulpExponent y := by
      rw [le_div_iff₀ hpos]
      have : (((2 : ℤ) ^ 52 : ℤ) : ℚ) * 2 ^ ulpExponent y = 2 ^ (ulpExponent y + 52) := by
        rw [zpow_add₀ h2, mul_comm]
        norm_cast
      rw [this]
      exact hy
    have hround := le_roundHalfEven hdiv
    have hcast : (((2 : ℤ) ^ 52 : ℤ) : ℚ) ≤ (roundHalfEven (y / 2 ^ ulpExponent y) : ℚ) := by
      exact_mod_cast hround
    have hfinal : (2 : ℚ) ^ (ulpExponent y + 52) ≤
        (roundHalfEven (y / 2 ^ ulpExponent y) : ℚ) * 2 ^ ulpExponent y := by
      have : (2 : ℚ) ^ (ulpExponent y + 52) = (((2 : ℤ) ^ 52 : ℤ) : ℚ) * 2 ^ ulpExponent y := by
        rw [zpow_add₀ h2, mul_comm]
        norm_cast
      rw [this]
      exact mul_le_mul_of_nonneg_right hcast hpos.le
    have hx3 : (m : ℚ) * 2 ^ e ≤ |(m : ℚ) * 2 ^ e| := le_abs_self _
    linarith


theorem nearestOnGrid_le (m e : ℤ) (hm : |m| < 2 ^ 53) (he : -1074 ≤ e) (y : ℚ)
    (h : y ≤ (m : ℚ) * 2 ^ e) : nearestOnGrid y ≤ (m : ℚ) * 2 ^ e := by
  have h2 : (2 : ℚ) ≠ 0 := by norm_num
  have hpos : (0 : ℚ) < 2 ^ ulpExponent y := zpow_pos (by norm_num) _
  unfold nearestOnGrid
  rcases le_or_lt (ulpExponent y) e with hk | hk
  · have hdiv : y / 2 ^ ulpExponent y ≤ ((m * 2 ^ (e - ulpExponent y).toNat : ℤ) : ℚ) := by
      rw [← div_zpow_of_le m e _ hk]
      exact div_le_div_of_nonneg_right h hpos.le
    have hround := roundHalfEven_le hdiv
    have hcast : (roundHalfEven (y / 2 ^ ulpExponent y) : ℚ) ≤
        ((m * 2 ^ (e - ulpExponent y).toNat : ℤ) : ℚ) := by exact_mod_cast hround
    calc (roundHalfEven (y / 2 ^ ulpExponent y) : ℚ) * 2 ^ ulpExponent y
        ≤ ((m * 2 ^ (e - ulpExponent y).toNat : ℤ) : ℚ) * 2 ^ ulpExponent y :=
          mul_le_mul_of_nonneg_right hcast hpos.le
      _ = ((m : ℚ) * 2 ^ e) / 2 ^ ulpExponent y * 2 ^ ulpExponent y := by
          rw [div_zpow_of_le m e _ hk]
      _ = (m : ℚ) * 2 ^ e := div_mul_cancel₀ _ hpos.ne'
  · have hbig : (2 : ℚ) ^ (ulpExponent y + 52) ≤ |y| :=
      zpow_le_abs_of_ulpExponent y (by omega)
    have hx : |(m : ℚ) * 2 ^ e| < (2 : ℚ) ^ (ulpExponent y + 52) :=
      lt_of_lt_of_le (abs_lt_of_representable m e hm)
        (zpow_le_zpow_right₀ (by norm_num) (by omega))
    have hyneg : y < 0 := by
      by_contra hnonneg
      have hy : |y| = y := abs_of_nonneg (not_lt.1 hnonneg)
      have hx2 : (m : ℚ) * 2 ^ e ≤ |(m : ℚ) * 2 ^ e| := le_abs_self _
      linarith
    have hy : y ≤ -(2 : ℚ) ^ (ulpExponent y + 52) := by
      rw [abs_of_neg hyneg] at hbig
      linarith
    have hscale : ((-(2 : ℤ) ^ 52 : ℤ) : ℚ) * 2 ^ ulpExponent y =
        -(2 : ℚ) ^ (ulpExponent y + 52) := by
      have hc : ((-(2 : ℤ) ^ 52 : ℤ) : ℚ) = -((2 : ℚ) ^ (52 : ℤ)) := by norm_num
      rw [zpow_add₀ h2, hc]
      ring
    have hdiv : y / 2 ^ ulpExponent y ≤ ((-(2 : ℤ) ^ 52 : ℤ) : ℚ) := by
      rw [div_le_iff₀ hpos, hscale]
      exact hy
    have hround := roundHalfEven_le hdiv
    have hcast : (roundHalfEven (y / 2 ^ ulpExponent y) : ℚ) ≤ ((-(2 : ℤ) ^ 52 : ℤ) : ℚ) := by
      exact_mod_cast hround
    have hfinal : (roundHalfEven (y / 2 ^ ulpExponent y) : ℚ) * 2 ^ ulpExponent y ≤
        -(2 : ℚ) ^ (ulpExponent y + 52) := by
      rw [← hscale]
      exact mul_le_mul_of_nonneg_right hcast hpos.le
    have hx3 : -|(m : ℚ) * 2 ^ e| ≤ (m : ℚ) * 2 ^ e := neg_abs_le _
    linarith

theorem le_roundToDouble (x y : ℚ) (hx : Representable x) (h : x ≤ y) :
    x ≤ roundToDouble y := by
  obtain ⟨m, e, hm, he1, he2, rfl⟩ := hx
  have hgrid := le_nearestOnGrid m e hm he1 y h
  have habs := abs_le.1 (abs_le_maxFinite_of_representable m e hm he2)
  unfold roundToDouble
  split_ifs with h1 h2
  · exact habs.2
  · linarith
  · exact hgrid

theorem roundToDouble_le (x y : ℚ) (hx : Representable x) (h : y ≤ x) :
    roundToDouble y ≤ x := by
  obtain ⟨m, e, hm, he1, he2, rfl⟩ := hx
  have hgrid := nearestOnGrid_le m e hm he1 y h
  have habs := abs_le.1 (abs_le_maxFinite_of_representable m e hm he2)
  unfold roundToDouble
  split_ifs with h1 h2
  · linarith
  · exact habs.1
  · exact hgrid


theorem maxFinite_lt : maxFinite < (2 : ℚ) ^ (1024 : ℤ) := by
  have hpos : (0 : ℚ) < 2 ^ (971 : ℤ) := zpow_pos (by norm_num) _
  have h53 : (2 : ℚ) ^ (53 : ℤ) = 2 ^ 53 := by norm_cast
  have h : (2 : ℚ) ^ (1024 : ℤ) = 2 ^ 53 * 2 ^ (971 : ℤ) := by
    rw [← h53, ← zpow_add₀ (by norm_num : (2 : ℚ) ≠ 0)]
    rfl
  rw [h]
  unfold maxFinite
  exact mul_lt_mul_of_pos_right (by norm_num) hpos

theorem representable_maxFinite : Representable maxFinite :=
  ⟨2 ^ 53 - 1, 971, by norm_num, by norm_num, le_refl _, by
    unfold maxFinite
    congr 1
    norm_num⟩

theorem representable_neg_maxFinite : Representable (-maxFinite) :=
  ⟨-(2 ^ 53 - 1), 971, by norm_num, by norm_num, le_refl _, by
    unfold maxFinite
    rw [← neg_mul]
    congr 1
    norm_num⟩

theorem abs_roundHalfEven_le (q : ℚ) :
    |roundHalfEven (q / 2 ^ ulpExponent q)| ≤ 2 ^ 53 := by
  have hpos : (0 : ℚ) < 2 ^ ulpExponent q := zpow_pos (by norm_num) _
  have habs : |q / 2 ^ ulpExponent q| < 2 ^ 53 := by
    rw [abs_div, abs_of_pos hpos, div_lt_iff₀ hpos]
    have h := abs_lt_zpow_ulpExponent q
    rw [zpow_add₀ (by norm_num : (2 : ℚ) ≠ 0), mul_comm] at h
    exact_mod_cast h
  have hb := abs_lt.1 habs
  have h1 : (((-2 ^ 53 : ℤ)) : ℚ) ≤ q / 2 ^ ulpExponent q := by
    push_cast
    linarith
  have h2 : q / 2 ^ ulpExponent q ≤ (((2 ^ 53 : ℤ)) : ℚ) := by
    push_cast
    linarith
  exact abs_le.2 ⟨le_roundHalfEven h1, roundHalfEven_le h2⟩

theorem abs_roundHalfEven_ge (q : ℚ) (h : -1074 < ulpExponent q) :
    2 ^ 52 ≤ |roundHalfEven (q / 2 ^ ulpExponent q)| := by
  have hpos : (0 : ℚ) < 2 ^ ulpExponent q := zpow_pos (by norm_num) _
  have hbig := zpow_le_abs_of_ulpExponent q h
  rw [zpow_add₀ (by norm_num : (2 : ℚ) ≠ 0)] at hbig
  have h52 : (2 : ℚ) ^ (52 : ℤ) = 2 ^ 52 := by norm_cast
  rw [h52] at hbig
  rcases le_or_lt 0 q with hq | hq
  · rw [abs_of_nonneg hq] at hbig
    have hdiv : (((2 ^ 52 : ℤ)) : ℚ) ≤ q / 2 ^ ulpExponent q := by
      rw [le_div_iff₀ hpos]
      push_cast
      linarith
    have := le_roundHalfEven hdiv
    exact le_trans this (le_abs_self _)
  · rw [abs_of_neg hq] at hbig
    have hdiv : q / 2 ^ ulpExponent q ≤ (((-2 ^ 52 : ℤ)) : ℚ) := by
      rw [div_le_iff₀ hpos]
      push_cast
      linarith
    have := roundHalfEven_le hdiv
    have h3 := neg_le_abs (roundHalfEven (q / 2 ^ ulpExponent q))
    omega


theorem representable_roundToDouble (q : ℚ) : Representable (roundToDouble q) := by
  have h2 : (2 : ℚ) ≠ 0 := by norm_num
  have hpos : (0 : ℚ) < 2 ^ ulpExponent q := zpow_pos (by norm_num) _
  have hle := abs_roundHalfEven_le q
  unfold roundToDouble
  split_ifs with h1 h3
  · exact representable_maxFinite
  · exact representable_neg_maxFinite
  · have hfin : |nearestOnGrid q| ≤ maxFinite := abs_le.2 ⟨not_lt.1 h3, not_lt.1 h1⟩
    have hval : |nearestOnGrid q| =
        (|roundHalfEven (q / 2 ^ ulpExponent q)| : ℤ) * 2 ^ ulpExponent q := by
      unfold nearestOnGrid
      rw [abs_mul, abs_of_pos hpos]
      push_cast
      rfl
    rcases lt_or_eq_of_le hle with hlt | heq
    · refine ⟨roundHalfEven (q / 2 ^ ulpExponent q), ulpExponent q, hlt,
        ulpExponent_ge q, ?_, rfl⟩
      by_contra hbig
      have hge := abs_roundHalfEven_ge q (by omega)
      have hge2 : ((2 : ℚ) ^ (52 : ℤ)) ≤ (|roundHalfEven (q / 2 ^ ulpExponent q)| : ℤ) := by
        have : ((2 ^ 52 : ℤ) : ℚ) ≤ (|roundHalfEven (q / 2 ^ ulpExponent q)| : ℤ) := by
          exact_mod_cast hge
        have h52 : (2 : ℚ) ^ (52 : ℤ) = ((2 ^ 52 : ℤ) : ℚ) := by norm_cast
        rw [h52]
        exact this
      have hpow : (2 : ℚ) ^ (1024 : ℤ) ≤ 2 ^ (52 : ℤ) * 2 ^ ulpExponent q := by
        rw [← zpow_add₀ h2]
        exact zpow_le_zpow_right₀ (by norm_num) (by omega)
      have hmul : (2 : ℚ) ^ (52 : ℤ) * 2 ^ ulpExponent q ≤ |nearestOnGrid q| := by
        rw [hval]
        exact mul_le_mul_of_nonneg_right hge2 hpos.le
      have := maxFinite_lt
      linarith
    · have hn : roundHalfEven (q / 2 ^ ulpExponent q) = 2 ^ 53 ∨
          roundHalfEven (q / 2 ^ ulpExponent q) = -2 ^ 53 := by
        rcases abs_cases (roundHalfEven (q / 2 ^ ulpExponent q)) with ⟨ha, _⟩ | ⟨ha, _⟩
        · left; omega
        · right; omega
      have hbound : ulpExponent q + 1 ≤ 971 := by
        have hN : |nearestOnGrid q| = 2 ^ (ulpExponent q + 53) := by
          rw [hval, heq, zpow_add₀ h2, mul_comm]
          norm_cast
        have hlt : (2 : ℚ) ^ (ulpExponent q + 53) < 2 ^ (1024 : ℤ) := by
          rw [← hN]
          exact lt_of_le_of_lt hfin maxFinite_lt
        have := (zpow_lt_zpow_iff_right₀ (by norm_num : (1 : ℚ) < 2)).1 hlt
        omega
      have hsplit : (2 : ℚ) ^ (ulpExponent q + 1) = 2 * 2 ^ ulpExponent q := by
        rw [zpow_add₀ h2, zpow_one, mul_comm]
      rcases hn with hn | hn
      · refine ⟨2 ^ 52, ulpExponent q + 1, by norm_num,
          by have := ulpExponent_ge q; omega, hbound, ?_⟩
        unfold nearestOnGrid
        rw [hn, hsplit]
        push_cast
        ring
      · refine ⟨-2 ^ 52, ulpExponent q + 1, by norm_num,
          by have := ulpExponent_ge q; omega, hbound, ?_⟩
        unfold nearestOnGrid
        rw [hn, hsplit]
        push_cast
        ring

theorem roundToDouble_idem (q : ℚ) : roundToDouble (roundToDouble q) = roundToDouble q :=
  roundToDouble_of_representable _ (representable_roundToDouble q)

theorem representable_iff (q : ℚ) : Representable q ↔ roundToDouble q = q :=
  ⟨roundToDouble_of_representable q, fun h => h ▸ representable_roundToDouble q⟩


theorem Float64.ofRat_val (q : ℚ) : (Float64.ofRat q).val = roundToDouble q := by
  unfold Float64.ofRat
  rw [dif_pos (roundToDouble_idem q)]

theorem Float64.representable (x : Float64) : Representable x.val :=
  (representable_iff x.val).2 x.isDouble

theorem Float64.ext_val {a b : Float64} (h : a.val = b.val) : a = b := by
  cases a
  cases b
  simp only [Float64.mk.injEq]
  exact h

theorem Float64.ofRat_val_of_representable (q : ℚ) (h : Representable q) :
    (Float64.ofRat q).val = q := by
  rw [Float64.ofRat_val, roundToDouble_of_representable q h]

theorem representable_intCast (n : ℤ) (h : |n| < 2 ^ 53) : Representable (n : ℚ) :=
  ⟨n, 0, h, by norm_num, by norm_num, by simp⟩

theorem Float64.ofNat_val (n : Nat) (h : n < 2 ^ 53) : (OfNat.ofNat n : Float64).val = n := by
  show (Float64.ofRat n).val = n
  have hrep : Representable ((n : ℤ) : ℚ) := representable_intCast n (by
    rw [abs_of_nonneg (by positivity)]
    exact_mod_cast h)
  exact Float64.ofRat_val_of_representable _ (by simpa using hrep)

theorem le_jsAdd (x c : Float64) (hc : 0 ≤ c.val) : x ≤ jsAdd x c := by
  show x.val ≤ (Float64.ofRat (x.val + c.val)).val
  rw [Float64.ofRat_val]
  exact le_roundToDouble _ _ x.representable (by linarith)

theorem jsSub_nonneg (a b : Float64) (h : b ≤ a) : (0 : Float64) ≤ jsSub a b := by
  have h0 : ((0 : Float64)).val = 0 := by simpa using Float64.ofNat_val 0 (by norm_num)
  have hba : b.val ≤ a.val := h
  show ((0 : Float64)).val ≤ (Float64.ofRat (a.val - b.val)).val
  rw [Float64.ofRat_val, h0]
  exact le_roundToDouble _ _ ((0 : Float64).representable |> (h0 ▸ ·)) (by linarith)


theorem roundHalfEven_of_near (t : ℚ) (n : ℤ) (h : |t - n| < 1 / 2) : roundHalfEven t = n := by
  have hb := abs_lt.1 h
  rcases le_or_lt (n : ℚ) t with hge | hlt
  · have hfloor : ⌊t⌋ = n := Int.floor_eq_iff.2 ⟨hge, by linarith⟩
    unfold roundHalfEven
    rw [hfloor, if_pos (by linarith)]
  · have hfloor : ⌊t⌋ = n - 1 := Int.floor_eq_iff.2 ⟨by push_cast; linarith, by push_cast; linarith⟩
    unfold roundHalfEven
    rw [hfloor, if_neg (by push_cast; linarith), if_pos (by push_cast; linarith)]
    ring

theorem roundHalfEven_of_tie_even (t : ℚ) (n : ℤ) (h : t = n + 1 / 2) (heven : n % 2 = 0) :
    roundHalfEven t = n := by
  have hfloor : ⌊t⌋ = n := Int.floor_eq_iff.2 ⟨by linarith, by linarith⟩
  unfold roundHalfEven
  rw [hfloor, if_neg (by linarith), if_neg (by linarith), if_pos heven]

theorem roundHalfEven_of_tie_odd (t : ℚ) (n : ℤ) (h : t = n + 1 / 2) (hodd : n % 2 = 1) :
    roundHalfEven t = n + 1 := by
  have hfloor : ⌊t⌋ = n := Int.floor_eq_iff.2 ⟨by linarith, by linarith⟩
  unfold roundHalfEven
  rw [hfloor, if_neg (by linarith), if_neg (by linarith), if_neg (by omega)]

theorem ulpExponent_eq (q : ℚ) (e : ℤ) (he : -1074 ≤ e)
    (hlo : (2 : ℚ) ^ (e + 52) ≤ |q|) (hhi : |q| < (2 : ℚ) ^ (e + 53)) : ulpExponent q = e := by
  apply le_antisymm (ulpExponent_le_of_abs_lt q e he hhi)
  have hpos : 0 < |q| := lt_of_lt_of_le (zpow_pos (by norm_num) _) hlo
  have hq : q ≠ 0 := abs_pos.1 hpos
  have hlog : e + 52 ≤ Int.log 2 |q| :=
    (Int.zpow_le_iff_le_log (by norm_num) hpos).1 (by simpa using hlo)
  unfold ulpExponent
  rw [if_neg hq]
  exact le_trans (by omega) (le_max_left _ _)

theorem roundToDouble_eq (q : ℚ) (e n : ℤ) (he : -1074 ≤ e) (he2 : e ≤ 971)
    (hlo : (2 : ℚ) ^ (e + 52) ≤ |q|) (hhi : |q| < (2 : ℚ) ^ (e + 53))
    (hround : roundHalfEven (q / 2 ^ e) = n) (hn : |n| < 2 ^ 53) :
    roundToDouble q = (n : ℚ) * 2 ^ e := by
  have hgrid : nearestOnGrid q = (n : ℚ) * 2 ^ e := by
    unfold nearestOnGrid
    rw [ulpExponent_eq q e he hlo hhi, hround]
  have hb := abs_le.1 (abs_le_maxFinite_of_representable n e hn he2)
  unfold roundToDouble
  rw [hgrid, if_neg (not_lt.2 hb.2), if_neg (not_lt.2 hb.1)]

theorem nearestOnGrid_add_small (x c : ℚ) (hx : Representable x) (h0 : 0 ≤ c) (h10 : c ≤ 10) :
    -maxFinite ≤ nearestOnGrid (x + c) ∧ nearestOnGrid (x + c) ≤ maxFinite := by
  have h2 : (2 : ℚ) ≠ 0 := by norm_num
  have hpos : (0 : ℚ) < 2 ^ (971 : ℤ) := zpow_pos (by norm_num) _
  have hxabs : |x| ≤ maxFinite := by
    obtain ⟨m, e, hm, _, he2, rfl⟩ := hx
    exact abs_le_maxFinite_of_representable m e hm he2
  have hxb := abs_le.1 hxabs
  have hmaxeq : maxFinite = ((2 ^ 53 - 1 : ℤ) : ℚ) * 2 ^ (971 : ℤ) := by
    unfold maxFinite
    congr 1
    norm_num
  have hnegeq : -maxFinite = ((-(2 ^ 53 - 1) : ℤ) : ℚ) * 2 ^ (971 : ℤ) := by
    unfold maxFinite
    rw [← neg_mul]
    congr 1
    norm_num
  constructor
  · rw [hnegeq]
    apply le_nearestOnGrid _ _ (by norm_num) (by norm_num)
    rw [← hnegeq]
    linarith
  · rcases le_or_lt (x + c) maxFinite with hle | hgt
    · rw [hmaxeq]
      apply nearestOnGrid_le _ _ (by norm_num) (by norm_num)
      rw [← hmaxeq]
      exact hle
    · have h32 : (32 : ℚ) ≤ 2 ^ (971 : ℤ) := by
        have h5 : (2 : ℚ) ^ (5 : ℤ) = 32 := by norm_num
        rw [← h5]
        exact zpow_le_zpow_right₀ (by norm_num) (by norm_num)
      have hypos : 0 < x + c := lt_trans (by unfold maxFinite; positivity) hgt
      have hsum : maxFinite + 2 ^ (971 : ℤ) = 2 ^ (1024 : ℤ) := by
        have h53 : (2 : ℚ) ^ (53 : ℤ) = 2 ^ 53 := by norm_cast
        have h : (2 : ℚ) ^ (1024 : ℤ) = 2 ^ 53 * 2 ^ (971 : ℤ) := by
          rw [← h53, ← zpow_add₀ h2]
          rfl
        rw [h]
        unfold maxFinite
        ring
      have hhalf : (2 : ℚ) ^ (1023 : ℤ) ≤ maxFinite := by
        have h52 : (2 : ℚ) ^ (52 : ℤ) = 2 ^ 52 := by norm_cast
        have h : (2 : ℚ) ^ (1023 : ℤ) = 2 ^ 52 * 2 ^ (971 : ℤ) := by
          rw [← h52, ← zpow_add₀ h2]
          rfl
        rw [h]
        unfold maxFinite
        exact mul_le_mul_of_nonneg_right (by norm_num) hpos.le
      have hulp : ulpExponent (x + c) = 971 := by
        apply ulpExponent_eq _ _ (by norm_num)
        · rw [abs_of_pos hypos]
          exact le_trans hhalf hgt.le
        · rw [abs_of_pos hypos]
          show x + c < (2 : ℚ) ^ (1024 : ℤ)
          rw [← hsum]
          linarith
      have hround : roundHalfEven ((x + c) / 2 ^ (971 : ℤ)) = 2 ^ 53 - 1 := by
        apply roundHalfEven_of_near
        have hdiff : (x + c) / 2 ^ (971 : ℤ) - ((2 ^ 53 - 1 : ℤ) : ℚ) =
            (x + c - maxFinite) / 2 ^ (971 : ℤ) := by
          rw [hmaxeq, sub_div, mul_div_assoc, div_self hpos.ne', mul_one]
        rw [hdiff, abs_of_nonneg (div_nonneg (by linarith) hpos.le), div_lt_iff₀ hpos]
        linarith
      have hval : nearestOnGrid (x + c) = maxFinite := by
        unfold nearestOnGrid
        rw [hulp, hround, hmaxeq]
      rw [hval]

theorem jsAdd_small_val (x c : Float64) (h0 : 0 ≤ c.val) (h10 : c.val ≤ 10) :
    (jsAdd x c).val = nearestOnGrid (x.val + c.val) := by
  have hb := nearestOnGrid_add_small x.val c.val x.representable h0 h10
  show (Float64.ofRat (x.val + c.val)).val = _
  rw [Float64.ofRat_val]
  unfold roundToDouble
  rw [if_neg (not_lt.2 hb.2), if_neg (not_lt.2 hb.1)]

/-- The literal `9.99` is the double `5623870034678907 * 2 ^ (-49)`. -/
theorem ofRat_sample_price :
    (Float64.ofRat (999 / 100)).val = 5623870034678907 / 562949953421312 := by
  rw [Float64.ofRat_val]
  have h := roundToDouble_eq (999 / 100) (-49) 5623870034678907 (by norm_num) (by norm_num)
    (by rw [abs_of_pos (by norm_num)]; norm_num)
    (by rw [abs_of_pos (by norm_num)]; norm_num)
    (roundHalfEven_of_near _ _ (by rw [abs_lt]; constructor <;> norm_num))
    (by norm_num)
  rw [h]
  norm_num

/-- The sum `9.99 + 10` is the double `19.990000000000002`, not the decimal `19.99`: the
exact sum lies halfway between two doubles and goes to the even significand. -/
theorem jsAdd_sample_large :
    (jsAdd (Float64.ofRat (999 / 100)) 10).val = 2813342392223007 / 140737488355328 ∧
      (jsAdd (Float64.ofRat (999 / 100)) 10).val ≠ 1999 / 100 := by
  have h10 : ((10 : Float64)).val = 10 := by
    simpa using Float64.ofNat_val 10 (by norm_num)
  have hval : (jsAdd (Float64.ofRat (999 / 100)) 10).val =
      2813342392223007 / 140737488355328 := by
    show (Float64.ofRat ((Float64.ofRat (999 / 100)).val + ((10 : Float64)).val)).val = _
    rw [Float64.ofRat_val, ofRat_sample_price, h10]
    have h := roundToDouble_eq (5623870034678907 / 562949953421312 + 10) (-48)
      5626684784446014 (by norm_num) (by norm_num)
      (by rw [abs_of_pos (by norm_num)]; norm_num)
      (by rw [abs_of_pos (by norm_num)]; norm_num)
      (roundHalfEven_of_tie_odd _ 5626684784446013 (by norm_num) (by norm_num))
      (by norm_num)
    rw [h]
    norm_num
  refine ⟨hval, ?_⟩
  rw [hval]
  norm_num

/-- The sum `1e16 + 5` is the double `1e16 + 4`: a tie that goes to the even significand. -/
theorem jsAdd_sample_tie :
    (jsAdd (Float64.ofRat 10000000000000000) 5).val = 10000000000000004 := by
  have h5 : ((5 : Float64)).val = 5 := by
    simpa using Float64.ofNat_val 5 (by norm_num)
  have hbig : (Float64.ofRat 10000000000000000).val = 10000000000000000 :=
    Float64.ofRat_val_of_representable _
      ⟨5000000000000000, 1, by norm_num, by norm_num, by norm_num, by norm_num⟩
  show (Float64.ofRat ((Float64.ofRat 10000000000000000).val + ((5 : Float64)).val)).val = _
  rw [Float64.ofRat_val, hbig, h5]
  have h := roundToDouble_eq (10000000000000000 + 5) 1
    5000000000000002 (by norm_num) (by norm_num)
    (by rw [abs_of_pos (by norm_num)]; norm_num)
    (by rw [abs_of_pos (by norm_num)]; norm_num)
    (roundHalfEven_of_tie_even _ _ (by norm_num) (by norm_num))
    (by norm_num)
  rw [h]
  norm_num


/-! ## Helper facts about the component -/

theorem Float64.ofNat_ne (a b : Nat) (ha : a < 2 ^ 53) (hb : b < 2 ^ 53) (h : a ≠ b) :
    (OfNat.ofNat a : Float64) ≠ (OfNat.ofNat b : Float64) := by
  intro heq
  have hval := congrArg Float64.val heq
  rw [Float64.ofNat_val a ha, Float64.ofNat_val b hb] at hval
  exact h (by exact_mod_cast hval)

theorem le_jsAdd_five (x : Float64) : x ≤ jsAdd x 5 :=
  le_jsAdd x 5 (by rw [Float64.ofNat_val 5 (by norm_num)]; norm_num)

theorem le_jsAdd_ten (x : Float64) : x ≤ jsAdd x 10 :=
  le_jsAdd x 10 (by rw [Float64.ofNat_val 10 (by norm_num)]; norm_num)

theorem isOutOfStock_eq_false_iff (product : Product) :
    isOutOfStock product = false ↔ Odd product.id := by
  unfold isOutOfStock
  rw [decide_eq_false_iff_not, ← Int.dvd_iff_tmod_eq_zero, ← Int.not_even_iff_odd,
    even_iff_two_dvd]

theorem isOutOfStock_of_even (product : Product) (h : Even product.id) :
    isOutOfStock product = true := by
  have h1 : ¬ isOutOfStock product = false := by
    rw [isOutOfStock_eq_false_iff, Int.not_odd_iff_even]
    exact h
  simpa using h1

theorem find_name_first (sel : String) (front : List Variant) (v : Variant)
    (back : List Variant) (hname : v.name = sel) (hfront : ∀ u ∈ front, u.name ≠ sel) :
    (front ++ v :: back).find? (fun u => decide (u.name = sel)) = some v := by
  induction front with
  | nil => simp [hname]
  | cons u rest ih =>
      have hu : u.name ≠ sel := hfront u (List.mem_cons_self u rest)
      have hrest : ∀ w ∈ rest, w.name ≠ sel := fun w hw =>
        hfront w (List.mem_cons_of_mem u hw)
      simp [hu, ih hrest]

theorem find_name_none (sel : String) (vs : List Variant) (h : ∀ u ∈ vs, u.name ≠ sel) :
    vs.find? (fun u => decide (u.name = sel)) = none := by
  simpa using h

/-- The five actions of an invocation that passes both checks. -/
theorem handleAddToCart_accepted (product : Product) (sel : String)
    (hodd : Odd product.id) (hok : ¬ (sel = "" ∧ (variants product).length > 1)) :
    handleAddToCart product sel =
      [ Action.setIsLoading true, Action.awaitDelay 500,
        Action.dispatchAddCart (productToAdd product sel),
        Action.toastSuccess "Added to cart!", Action.setIsLoading false ] := by
  have hstock : isOutOfStock product = false := (isOutOfStock_eq_false_iff product).2 hodd
  unfold handleAddToCart
  rw [if_neg (by simp [hstock]), if_neg hok]

/-- The button of a card rendered with an accepted selection and no loading is enabled. -/
theorem buttonDisabled_selecting (product : Product) (sel : String)
    (hodd : Odd product.id) (hok : ¬ (sel = "" ∧ (variants product).length > 1)) :
    buttonDisabled product (Card.selecting sel) = false := by
  have hstock : isOutOfStock product = false := (isOutOfStock_eq_false_iff product).2 hodd
  simp only [buttonDisabled, hstock, Card.selecting]
  by_cases hsel : sel = ""
  · have hlen : ¬ (variants product).length > 1 := fun hl => hok ⟨hsel, hl⟩
    simp [hlen]
  · simp [hsel]

/-- A click through an enabled button followed by the timer performs the whole accepted
invocation: the line item is dispatched, the success toast shown, the flag reset. -/
theorem run_click_delay_accepted (product : Product) (sel : String)
    (hodd : Odd product.id) (hok : ¬ (sel = "" ∧ (variants product).length > 1)) :
    run product (Card.selecting sel) [Event.click, Event.delayElapsed] =
      { Card.selecting sel with
        log := [ Action.dispatchAddCart (productToAdd product sel),
                 Action.toastSuccess "Added to cart!" ] } := by
  have hbutton := buttonDisabled_selecting product sel hodd hok
  have htrace : handleAddToCart product (Card.selecting sel).renderedVariant = _ :=
    handleAddToCart_accepted product sel hodd hok
  simp only [run, List.foldl_cons, List.foldl_nil, step, hbutton, Bool.false_eq_true,
    if_false, invoke, htrace]
  simp [perform, Card.selecting]

/-- A click on a card rendered with the loading flag set changes nothing. -/
theorem step_click_loading (product : Product) (card : Card)
    (h : card.renderedLoading = true) : step product card Event.click = card := by
  have hbutton : buttonDisabled product card = true := by
    unfold buttonDisabled
    split <;> simp [h]
  simp [step, hbutton]

/-- Once a render has shown the loading flag, a click changes nothing: the only guard
against a second submission is the `disabled` attribute of the rendered button. -/
theorem click_after_render_ignored (product : Product) (card : Card)
    (h : card.isLoading = true) :
    step product (step product card Event.render) Event.click =
      step product card Event.render :=
  step_click_loading product _ (by simp [step, h])

/-! ## The variant catalog -/

/-- C1, counterexample: a product whose `variants` field is the empty sequence resolves to
the empty catalog, not to Small, Medium, Large. -/
theorem variants_empty_list_counterexample :
    (sampleWith []).variants = some [] ∧ variants (sampleWith []) = [] ∧
      variants (sampleWith []) ≠ mockVariants (sampleWith []) := by
  simp [sampleWith, variants, mockVariants]

/-- C1, as amended: when `variants` is absent (`undefined` or `null`) the resolved catalog
is exactly Small at the base price, Medium at the double-precision sum base + 5 and Large at
the double-precision sum base + 10, in that order, hence not empty; a list that is present,
the empty one included, is the resolved catalog unchanged. -/
theorem variants_resolved (product : Product) :
    (product.variants = none →
      variants product =
          [ { id := 1, name := "Small", price := product.price },
            { id := 2, name := "Medium", price := jsAdd product.price 5 },
            { id := 3, name := "Large", price := jsAdd product.price 10 } ] ∧
        variants product ≠ []) ∧
      (∀ vs, product.variants = some vs → variants product = vs) := by
  refine ⟨fun h => ?_, fun vs h => ?_⟩
  · simp [variants, h, mockVariants]
  · simp [variants, h]

/-- C1, the amended statement at the product with base price 9.99, whose Large price is the
double 19.990000000000002 (`jsAdd_sample_large`), and at a product with one explicit
variant. -/
theorem variants_resolved_witness :
    variants (sampleWithPrice (Float64.ofRat (999 / 100))) =
        [ { id := 1, name := "Small", price := Float64.ofRat (999 / 100) },
          { id := 2, name := "Medium", price := jsAdd (Float64.ofRat (999 / 100)) 5 },
          { id := 3, name := "Large", price := jsAdd (Float64.ofRat (999 / 100)) 10 } ] ∧
      variants (sampleWith [⟨7, "One size", 12⟩]) = [⟨7, "One size", 12⟩] :=
  ⟨((variants_resolved (sampleWithPrice (Float64.ofRat (999 / 100)))).1 rfl).1,
    (variants_resolved (sampleWith [⟨7, "One size", 12⟩])).2 _ rfl⟩

/-- C9, counterexample: an explicit variant cheaper than the product is passed through, so
the catalog, here of two entries and so shown in the selector, holds a variant below the
base price and its option shows a negative delta. -/
theorem variants_price_counterexample :
    (⟨1, "Sale", 8⟩ : Variant) ∈ variants (sampleWith [⟨1, "Sale", 8⟩, ⟨2, "Regular", 12⟩]) ∧
      (⟨1, "Sale", 8⟩ : Variant).price <
        (sampleWith [⟨1, "Sale", 8⟩, ⟨2, "Regular", 12⟩]).price ∧
      optionDelta (sampleWith [⟨1, "Sale", 8⟩, ⟨2, "Regular", 12⟩]) ⟨1, "Sale", 8⟩ < 0 ∧
      selectorEnabled (sampleWith [⟨1, "Sale", 8⟩, ⟨2, "Regular", 12⟩]) = true := by
  have h8 : ((8 : Float64)).val = 8 := by simpa using Float64.ofNat_val 8 (by norm_num)
  have h10 : ((10 : Float64)).val = 10 := by simpa using Float64.ofNat_val 10 (by norm_num)
  have h0 : ((0 : Float64)).val = 0 := by simpa using Float64.ofNat_val 0 (by norm_num)
  refine ⟨?_, ?_, ?_, ?_⟩
  · simp [variants, sampleWith]
  · show ((8 : Float64)).val < ((10 : Float64)).val
    rw [h8, h10]
    norm_num
  · show (Float64.ofRat (((8 : Float64)).val - ((10 : Float64)).val)).val < ((0 : Float64)).val
    rw [h8, h10, h0, Float64.ofRat_val_of_representable _
      ⟨-2, 0, by norm_num, by norm_num, by norm_num, by norm_num⟩]
    norm_num
  · have hodd : isOutOfStock (sampleWith [⟨1, "Sale", 8⟩, ⟨2, "Regular", 12⟩]) = false :=
      (isOutOfStock_eq_false_iff _).2 ⟨0, rfl⟩
    have hlen : (variants (sampleWith [⟨1, "Sale", 8⟩, ⟨2, "Regular", 12⟩])).length > 1 := by
      simp [variants, sampleWith]
    simp [selectorEnabled, hodd, hlen]

/-- C9, as amended: every variant of the resolved catalog has price at least the base
price, and so a non-negative option delta, exactly when the product has no explicit
variants or every explicit variant it was given already has price at least the base
price; the component passes explicit variants through unchecked. -/
theorem variants_price_ge_iff (product : Product) :
    (∀ v ∈ variants product, product.price ≤ v.price ∧ 0 ≤ optionDelta product v) ↔
      (∀ vs, product.variants = some vs → ∀ v ∈ vs, product.price ≤ v.price) := by
  constructor
  · intro h vs hvs v hv
    have hmem : v ∈ variants product := by simpa [variants, hvs] using hv
    exact (h v hmem).1
  · intro h v hv
    have hle : product.price ≤ v.price := by
      cases hvs : product.variants with
      | some vs =>
          have hmem : v ∈ vs := by simpa [variants, hvs] using hv
          exact h vs hvs v hmem
      | none =>
          have hmem : v ∈ mockVariants product := by simpa [variants, hvs] using hv
          simp only [mockVariants, List.mem_cons, List.mem_singleton, List.not_mem_nil,
            or_false] at hmem
          rcases hmem with rfl | rfl | rfl
          · exact le_refl product.price.val
          · exact le_jsAdd_five product.price
          · exact le_jsAdd_ten product.price
    exact ⟨hle, jsSub_nonneg v.price product.price hle⟩

/-- C9, the amended statement at the sample product, which has no explicit variants, and
its Large variant. -/
theorem variants_price_ge_iff_witness :
    sampleProduct.price ≤ (⟨3, "Large", jsAdd sampleProduct.price 10⟩ : Variant).price ∧
      0 ≤ optionDelta sampleProduct ⟨3, "Large", jsAdd sampleProduct.price 10⟩ :=
  (variants_price_ge_iff sampleProduct).2 (fun vs h => by simp [sampleProduct] at h)
    ⟨3, "Large", jsAdd sampleProduct.price 10⟩ (by simp [variants, sampleProduct, mockVariants])

/-! ## Availability -/

/-- C10: for every integer id, positive, zero or negative, the product is available
(`isOutOfStock` is false) if and only if the id is odd. -/
theorem available_iff_odd (product : Product) :
    isOutOfStock product = false ↔ Odd product.id :=
  isOutOfStock_eq_false_iff product

/-! ## The effective price -/

/-- C2, counterexample: on a catalog with exactly one entry, a selection naming that entry
resolves to the entry price 15, not to the base price 10. -/
theorem variantPrice_single_entry_counterexample :
    (variants (sampleWith [⟨1, "Only", 15⟩])).length = 1 ∧
      variantPrice (sampleWith [⟨1, "Only", 15⟩]) (variants (sampleWith [⟨1, "Only", 15⟩]))
          "Only" = some 15 ∧
      variantPrice (sampleWith [⟨1, "Only", 15⟩]) (variants (sampleWith [⟨1, "Only", 15⟩]))
          "Only" ≠ some (sampleWith [⟨1, "Only", 15⟩]).price := by
  have hsel : "Only" ≠ "" := by decide
  have hprice : variantPrice (sampleWith [⟨1, "Only", 15⟩])
      (variants (sampleWith [⟨1, "Only", 15⟩])) "Only" = some 15 := by
    simp [variantPrice, variants, sampleWith, hsel]
  refine ⟨by simp [variants, sampleWith], hprice, ?_⟩
  rw [hprice]
  intro h
  exact Float64.ofNat_ne 15 10 (by norm_num) (by norm_num) (by norm_num) (Option.some.inj h)

/-- C2, as amended: the effective price is the base price when no selection is given (the
empty string); with a selection it is, whatever the length of the catalog, the price of the
first catalog variant whose name equals the selection, and it is undefined when no catalog
variant has that name. -/
theorem variantPrice_resolved (product : Product) (vs : List Variant) (sel : String) :
    (sel = "" → variantPrice product vs sel = some product.price) ∧
      (sel ≠ "" → ∀ front v back, vs = front ++ v :: back → v.name = sel →
        (∀ u ∈ front, u.name ≠ sel) → variantPrice product vs sel = some v.price) ∧
      (sel ≠ "" → (∀ u ∈ vs, u.name ≠ sel) → variantPrice product vs sel = none) := by
  refine ⟨fun h => ?_, fun h front v back hvs hname hfront => ?_, fun h hnone => ?_⟩
  · simp [variantPrice, h]
  · simp [variantPrice, h, hvs, find_name_first sel front v back hname hfront]
  · simp [variantPrice, h, find_name_none sel vs hnone]

/-- C2, the amended statement at the sample product: no selection gives the base price 10,
the selection Large gives the price of the third mock variant. -/
theorem variantPrice_resolved_witness :
    variantPrice sampleProduct (variants sampleProduct) "" = some sampleProduct.price ∧
      variantPrice sampleProduct (variants sampleProduct) "Large" =
        some (jsAdd sampleProduct.price 10) :=
  ⟨(variantPrice_resolved sampleProduct (variants sampleProduct) "").1 rfl,
    (variantPrice_resolved sampleProduct (variants sampleProduct) "Large").2.1 (by decide)
      [⟨1, "Small", sampleProduct.price⟩, ⟨2, "Medium", jsAdd sampleProduct.price 5⟩]
      ⟨3, "Large", jsAdd sampleProduct.price 10⟩ [] rfl rfl (by decide)⟩

/-! ## The add-to-cart handler -/

/-- C3: for a product with an even id, whatever its catalog and whatever the selection, one
invocation of `handleAddToCart` performs exactly one action, the out-of-stock error toast:
no line item is dispatched, the only notification is that error, a false loading flag stays
false, and on any card nothing but the log changes. -/
theorem handleAddToCart_out_of_stock (product : Product) (sel : String)
    (heven : Even product.id) :
    handleAddToCart product sel = [Action.toastError "Product is out of stock!"] ∧
      dispatched (handleAddToCart product sel) = [] ∧
      notifications (handleAddToCart product sel) =
        [Action.toastError "Product is out of stock!"] ∧
      loadingAfter false (handleAddToCart product sel) = false ∧
      (∀ card : Card,
        invoke product card =
          { card with log := card.log ++ [Action.toastError "Product is out of stock!"] }) := by
  have hstock : isOutOfStock product = true := isOutOfStock_of_even product heven
  have htrace : ∀ s, handleAddToCart product s =
      [Action.toastError "Product is out of stock!"] := by
    intro s
    simp [handleAddToCart, hstock]
  refine ⟨htrace sel, ?_, ?_, ?_, ?_⟩
  · simp [htrace, dispatched]
  · simp [htrace, notifications]
  · simp [htrace, loadingAfter]
  · intro card
    simp [invoke, htrace, perform]

/-- C3 at the product with id 2 and the selection Large. -/
theorem handleAddToCart_out_of_stock_witness :
    Even (sampleWithId 2).id ∧
      handleAddToCart (sampleWithId 2) "Large" =
        [Action.toastError "Product is out of stock!"] :=
  ⟨⟨1, rfl⟩, (handleAddToCart_out_of_stock (sampleWithId 2) "Large" ⟨1, rfl⟩).1⟩

/-- C4: for a product with an odd id whose catalog has more than one entry, one invocation
of `handleAddToCart` with the empty selection performs exactly one action, the
variant-required error toast: no line item is dispatched and the only notification is that
error. -/
theorem handleAddToCart_variant_required (product : Product)
    (hodd : Odd product.id) (hmany : (variants product).length > 1) :
    handleAddToCart product "" = [Action.toastError "Please select a variant!"] ∧
      dispatched (handleAddToCart product "") = [] ∧
      notifications (handleAddToCart product "") =
        [Action.toastError "Please select a variant!"] := by
  have hstock : isOutOfStock product = false := (isOutOfStock_eq_false_iff product).2 hodd
  have htrace : handleAddToCart product "" =
      [Action.toastError "Please select a variant!"] := by
    simp [handleAddToCart, hstock, hmany]
  refine ⟨htrace, ?_, ?_⟩
  · simp [htrace, dispatched]
  · simp [htrace, notifications]

/-- C4 at the sample product, whose catalog is the three mock variants. -/
theorem handleAddToCart_variant_required_witness :
    Odd sampleProduct.id ∧ (variants sampleProduct).length > 1 ∧
      handleAddToCart sampleProduct "" = [Action.toastError "Please select a variant!"] :=
  ⟨⟨0, rfl⟩, by decide,
    (handleAddToCart_variant_required sampleProduct ⟨0, rfl⟩ (by decide)).1⟩

/-- C5, counterexample: the catalog holds two variants named A, at 11 and at 12. The
selection A names the second as well, yet the dispatched line item carries 11, the price of
the first, not the price 12 of that variant. -/
theorem handleAddToCart_duplicate_name_counterexample :
    Odd (sampleWith [⟨1, "A", 11⟩, ⟨2, "A", 12⟩]).id ∧
      (⟨2, "A", 12⟩ : Variant) ∈ variants (sampleWith [⟨1, "A", 11⟩, ⟨2, "A", 12⟩]) ∧
      (⟨2, "A", 12⟩ : Variant).name = "A" ∧
      dispatched (handleAddToCart (sampleWith [⟨1, "A", 11⟩, ⟨2, "A", 12⟩]) "A") =
        [{ product := sampleWith [⟨1, "A", 11⟩, ⟨2, "A", 12⟩], selectedVariant := some "A",
           variantPrice := some 11 }] ∧
      dispatched (handleAddToCart (sampleWith [⟨1, "A", 11⟩, ⟨2, "A", 12⟩]) "A") ≠
        [{ product := sampleWith [⟨1, "A", 11⟩, ⟨2, "A", 12⟩], selectedVariant := some "A",
           variantPrice := some (⟨2, "A", 12⟩ : Variant).price }] := by
  have hsel : "A" ≠ "" := by decide
  have hodd : Odd (sampleWith [⟨1, "A", 11⟩, ⟨2, "A", 12⟩]).id := ⟨0, rfl⟩
  have hitem : productToAdd (sampleWith [⟨1, "A", 11⟩, ⟨2, "A", 12⟩]) "A" =
      { product := sampleWith [⟨1, "A", 11⟩, ⟨2, "A", 12⟩], selectedVariant := some "A",
        variantPrice := some 11 } := by
    simp [productToAdd, selectedVariantName, variantPrice, hsel, variants, sampleWith]
  have htrace := handleAddToCart_accepted _ "A" hodd (fun h => hsel h.1)
  rw [hitem] at htrace
  have hdisp : dispatched (handleAddToCart (sampleWith [⟨1, "A", 11⟩, ⟨2, "A", 12⟩]) "A") =
      [{ product := sampleWith [⟨1, "A", 11⟩, ⟨2, "A", 12⟩], selectedVariant := some "A",
         variantPrice := some 11 }] := by
    rw [htrace]
    rfl
  refine ⟨hodd, by simp [variants, sampleWith], rfl, hdisp, ?_⟩
  rw [hdisp]
  intro h
  have hprice : (11 : Float64) = 12 := by
    have h1 := (List.cons.inj h).1
    exact Option.some.inj (congrArg CartLineItem.variantPrice h1)
  exact Float64.ofNat_ne 11 12 (by norm_num) (by norm_num) (by norm_num) hprice

/-- C5, as amended: for a product with an odd id and a selection (a non-empty name) whose
first match in the resolved catalog is the variant `v`, one invocation of `handleAddToCart`
sets the flag, waits, dispatches exactly one line item whose `selectedVariant` is that name
and whose `variantPrice` is the price of `v`, shows exactly one notification, the success
toast, and resets the flag; a click followed by the timer performs all of it; and without
explicit variants the selection Large is charged the double-precision sum of the base price
and 10. -/
theorem handleAddToCart_selected (product : Product) (sel : String)
    (front : List Variant) (v : Variant) (back : List Variant)
    (hodd : Odd product.id) (hsel : sel ≠ "") (hvs : variants product = front ++ v :: back)
    (hname : v.name = sel) (hfront : ∀ u ∈ front, u.name ≠ sel) :
    handleAddToCart product sel =
        [ Action.setIsLoading true, Action.awaitDelay 500,
          Action.dispatchAddCart
            { product := product, selectedVariant := some sel, variantPrice := some v.price },
          Action.toastSuccess "Added to cart!", Action.setIsLoading false ] ∧
      dispatched (handleAddToCart product sel) =
        [{ product := product, selectedVariant := some sel, variantPrice := some v.price }] ∧
      notifications (handleAddToCart product sel) = [Action.toastSuccess "Added to cart!"] ∧
      run product (Card.selecting sel) [Event.click, Event.delayElapsed] =
        { Card.selecting sel with
          log := [ Action.dispatchAddCart
                     { product := product, selectedVariant := some sel,
                       variantPrice := some v.price },
                   Action.toastSuccess "Added to cart!" ] } ∧
      (product.variants = none → sel = "Large" → v.price = jsAdd product.price 10) := by
  have hok : ¬ (sel = "" ∧ (variants product).length > 1) := fun h => hsel h.1
  have hitem : productToAdd product sel =
      { product := product, selectedVariant := some sel, variantPrice := some v.price } := by
    simp [productToAdd, selectedVariantName, variantPrice, hsel, hvs,
      find_name_first sel front v back hname hfront]
  have htrace := handleAddToCart_accepted product sel hodd hok
  have hrun := run_click_delay_accepted product sel hodd hok
  rw [hitem] at htrace hrun
  refine ⟨htrace, ?_, ?_, hrun, ?_⟩
  · simp [htrace, dispatched]
  · simp [htrace, notifications]
  · intro hnone hlarge
    have hmem : v ∈ mockVariants product := by
      have hv : v ∈ variants product := by rw [hvs]; simp
      simpa [variants, hnone] using hv
    simp only [mockVariants, List.mem_cons, List.mem_singleton, List.not_mem_nil,
      or_false] at hmem
    rw [← hname] at hlarge
    have hsmall : "Small" ≠ "Large" := by decide
    have hmedium : "Medium" ≠ "Large" := by decide
    rcases hmem with rfl | rfl | rfl
    · exact absurd hlarge hsmall
    · exact absurd hlarge hmedium
    · rfl

/-- C5, the amended statement at the product with base price 9.99 and the selection Large:
the dispatched line item carries the name Large and the double-precision sum 9.99 + 10,
which is 19.990000000000002 (`jsAdd_sample_large`). -/
theorem handleAddToCart_selected_witness :
    dispatched (handleAddToCart (sampleWithPrice (Float64.ofRat (999 / 100))) "Large") =
      [{ product := sampleWithPrice (Float64.ofRat (999 / 100)),
         selectedVariant := some "Large",
         variantPrice := some (jsAdd (Float64.ofRat (999 / 100)) 10) }] :=
  (handleAddToCart_selected (sampleWithPrice (Float64.ofRat (999 / 100))) "Large"
    [⟨1, "Small", Float64.ofRat (999 / 100)⟩, ⟨2, "Medium", jsAdd (Float64.ofRat (999 / 100)) 5⟩]
    ⟨3, "Large", jsAdd (Float64.ofRat (999 / 100)) 10⟩ []
    ⟨0, rfl⟩ (by decide) rfl rfl (by decide)).2.1

/-- C6: for a product with an odd id whose catalog has exactly one entry, one invocation of
`handleAddToCart` with the empty selection succeeds: it dispatches exactly one line item,
whose `selectedVariant` is the name of the sole catalog entry and whose `variantPrice` is
the base price, and shows the success toast; a click followed by the timer performs it. -/
theorem handleAddToCart_single_variant (product : Product) (v : Variant)
    (hodd : Odd product.id) (hone : variants product = [v]) :
    handleAddToCart product "" =
        [ Action.setIsLoading true, Action.awaitDelay 500,
          Action.dispatchAddCart
            { product := product, selectedVariant := some v.name,
              variantPrice := some product.price },
          Action.toastSuccess "Added to cart!", Action.setIsLoading false ] ∧
      dispatched (handleAddToCart product "") =
        [{ product := product, selectedVariant := some v.name,
           variantPrice := some product.price }] ∧
      notifications (handleAddToCart product "") = [Action.toastSuccess "Added to cart!"] ∧
      (run product Card.initial [Event.click, Event.delayElapsed]).log =
        [ Action.dispatchAddCart
            { product := product, selectedVariant := some v.name,
              variantPrice := some product.price },
          Action.toastSuccess "Added to cart!" ] := by
  have hok : ¬ (("" : String) = "" ∧ (variants product).length > 1) := by
    intro h
    have hlen := h.2
    simp [hone] at hlen
  have hitem : productToAdd product "" =
      { product := product, selectedVariant := some v.name,
        variantPrice := some product.price } := by
    simp [productToAdd, selectedVariantName, variantPrice, hone]
  have htrace := handleAddToCart_accepted product "" hodd hok
  have hrun : run product Card.initial [Event.click, Event.delayElapsed] = _ :=
    run_click_delay_accepted product "" hodd hok
  rw [hitem] at htrace hrun
  refine ⟨htrace, ?_, ?_, ?_⟩
  · simp [htrace, dispatched]
  · simp [htrace, notifications]
  · rw [hrun]

/-- C6 at the sample product given the single explicit variant One size at 12: the line
item carries that name and the base price. -/
theorem handleAddToCart_single_variant_witness :
    dispatched (handleAddToCart (sampleWith [⟨7, "One size", 12⟩]) "") =
      [{ product := sampleWith [⟨7, "One size", 12⟩], selectedVariant := some "One size",
         variantPrice := some (sampleWith [⟨7, "One size", 12⟩]).price }] :=
  (handleAddToCart_single_variant (sampleWith [⟨7, "One size", 12⟩]) ⟨7, "One size", 12⟩
    ⟨0, rfl⟩ rfl).2.1

/-- C8, counterexample: on the sample product (odd id, catalog Small, Medium, Large) the
selection XL matches no variant, yet the invocation raises no error and dispatches a line
item whose `variantPrice` is undefined, under a success toast. -/
theorem handleAddToCart_unmatched_counterexample :
    Odd sampleProduct.id ∧ "XL" ∉ (variants sampleProduct).map Variant.name ∧
      dispatched (handleAddToCart sampleProduct "XL") =
        [{ product := sampleProduct, selectedVariant := some "XL", variantPrice := none }] ∧
      notifications (handleAddToCart sampleProduct "XL") =
        [Action.toastSuccess "Added to cart!"] := by
  have hsel : "XL" ≠ "" := by decide
  have hodd : Odd sampleProduct.id := ⟨0, rfl⟩
  have hnone : ∀ v ∈ variants sampleProduct, v.name ≠ "XL" := by
    intro v hv
    simp only [variants, sampleProduct, mockVariants, List.mem_cons, List.mem_singleton,
      List.not_mem_nil, or_false] at hv
    rcases hv with rfl | rfl | rfl <;> decide
  have hitem : productToAdd sampleProduct "XL" =
      { product := sampleProduct, selectedVariant := some "XL", variantPrice := none } := by
    simp [productToAdd, selectedVariantName, variantPrice, hsel,
      find_name_none "XL" (variants sampleProduct) hnone]
  have htrace := handleAddToCart_accepted sampleProduct "XL" hodd (fun h => hsel h.1)
  rw [hitem] at htrace
  exact ⟨hodd, by simpa using hnone, by rw [htrace]; rfl, by rw [htrace]; rfl⟩

/-- C8, as amended: for a product with an odd id and a non-empty selection that matches no
variant name of the resolved catalog, one invocation of `handleAddToCart` raises no error:
it dispatches exactly one line item, whose `selectedVariant` is the selection and whose
`variantPrice` is undefined, and shows exactly one notification, the success toast. -/
theorem handleAddToCart_unmatched (product : Product) (sel : String)
    (hodd : Odd product.id) (hsel : sel ≠ "")
    (hnone : ∀ v ∈ variants product, v.name ≠ sel) :
    handleAddToCart product sel =
        [ Action.setIsLoading true, Action.awaitDelay 500,
          Action.dispatchAddCart
            { product := product, selectedVariant := some sel, variantPrice := none },
          Action.toastSuccess "Added to cart!", Action.setIsLoading false ] ∧
      dispatched (handleAddToCart product sel) =
        [{ product := product, selectedVariant := some sel, variantPrice := none }] ∧
      notifications (handleAddToCart product sel) =
        [Action.toastSuccess "Added to cart!"] := by
  have hitem : productToAdd product sel =
      { product := product, selectedVariant := some sel, variantPrice := none } := by
    simp [productToAdd, selectedVariantName, variantPrice, hsel,
      find_name_none sel (variants product) hnone]
  have htrace := handleAddToCart_accepted product sel hodd (fun h => hsel h.1)
  rw [hitem] at htrace
  exact ⟨htrace, by simp [htrace, dispatched], by simp [htrace, notifications]⟩

/-- C8, the amended statement at the product with id 3 and the selection Extra. -/
theorem handleAddToCart_unmatched_witness :
    dispatched (handleAddToCart (sampleWithId 3) "Extra") =
      [{ product := sampleWithId 3, selectedVariant := some "Extra", variantPrice := none }] :=
  (handleAddToCart_unmatched (sampleWithId 3) "Extra" ⟨1, rfl⟩ (by decide)
    (by simp [variants, sampleWithId, sampleProduct, mockVariants])).2.1

/-! ## Repeated submission -/

/-- C7, the code at the failing input: the sample product rendered with the selection
Large, clicked twice before the next render. The first click sets the loading flag and
suspends one invocation; the button of the last render is still enabled and
`handleAddToCart` does not read the flag, so the second click suspends a second invocation;
once both timers have fired two line items have been dispatched and two toasts shown. -/
theorem double_click_dispatches_twice :
    (step sampleProduct (Card.selecting "Large") Event.click).isLoading = true ∧
      (step sampleProduct (Card.selecting "Large") Event.click).suspended.length = 1 ∧
      (run sampleProduct (Card.selecting "Large")
        [Event.click, Event.click]).suspended.length = 2 ∧
      (dispatched (run sampleProduct (Card.selecting "Large")
        [Event.click, Event.click, Event.delayElapsed, Event.delayElapsed]).log).length = 2 ∧
      (notifications (run sampleProduct (Card.selecting "Large")
        [Event.click, Event.click, Event.delayElapsed, Event.delayElapsed]).log).length = 2 := by
  have hsel : "Large" ≠ "" := by decide
  have hodd : Odd sampleProduct.id := ⟨0, rfl⟩
  have htrace := handleAddToCart_accepted sampleProduct "Large" hodd (fun h => hsel h.1)
  have hstock : isOutOfStock sampleProduct = false :=
    (isOutOfStock_eq_false_iff sampleProduct).2 hodd
  simp [run, step, buttonDisabled, hstock, invoke, Card.selecting, htrace, perform, hsel,
    dispatched, notifications]

end ProductCard
